import Mathlib

/-!
# Verification of the memory-bounded temporal aggregation engine

Shallow embedding of `read_case_1` from `DeepRetail/data/casereaders.py`
(the memory-bounded temporal aggregation engine of the spec), together with
theorems settling the frozen claims about it.

## Modelling conventions

* A normalized input record (after the dataset-specific renaming that the
  spec treats as an external collaborator: columns `DC`/`Shop` are dropped,
  `Item` is renamed to `unique_id`) is a `Rec` with fields
  `unique_id : String`, `date : Int`, `y : Int`.
* Calendar dates are day numbers (days since 1970-01-01, which was a
  Thursday; hence a day number `d` is a Sunday iff `d % 7 = 3`).
  `y` values are integers (the claims are about aggregation-sum semantics,
  not float rounding).
* `pandas.read_csv` is abstracted into the record list itself;
  `write_filepath`/`to_csv` are abstracted into a per-iteration outcome
  oracle `saveFails : Nat → Bool` (iteration `k`'s durable write raises iff
  `saveFails k = true`).  A raised Python exception is modelled as an
  `Except.error`: `ValueError` on an unsupported frequency becomes
  `Err.config`, an uncaught `to_csv` failure becomes `Err.checkpoint`.
* `pandas.pivot_table(index="unique_id", columns="date", values="y",
  aggfunc="sum")` produces, for each unique id (sorted) and each distinct
  date of the window, the sum of `y` over matching records, `NaN` when the
  id has no record on that date.  A cell that may be `NaN` is an
  `Option Int` (`none` = NaN/absent).
* `.resample(freq, axis=1).sum()` groups the date columns into calendar
  buckets and sums each bucket with `skipna` semantics (`min_count=0`, so a
  bucket with only-`NaN` cells yields an explicit `0`), producing one column
  per bucket between the first and the last date, labelled by the bucket's
  right edge: for `"W"` (= `W-SUN`) the week-ending Sunday, for `"M"` the
  month-end day.
* `pd.concat([...], axis=1)` (outer join) concatenates the column lists —
  keeping duplicate labels — and takes the sorted union of the row indexes,
  filling `NaN` for rows absent from one operand.
* The `while` loop is embedded with structural recursion on a fuel counter;
  `read_case_1` passes fuel `(maxDate - minDate).toNat + 1`, which exceeds
  the number of iterations (the loop advances `start_date` by
  `chunk_size - 1 ≥ 13` days per iteration while `start_date` stays below
  `maxDate`); `loop_fuel_stable` proves the fuel choice irrelevant, so the
  embedding computes exactly the source loop's fixpoint.
-/

/-- A normalized input record `{unique_id, date, y}` (source columns
`["DC", "Shop", "Item", "date", "y"]` after dropping `DC`/`Shop` and
renaming `Item` to `unique_id`, lines 96 and 126–127 of the source). -/
structure Rec where
  unique_id : String
  date : Int
  y : Int
deriving DecidableEq, Repr

/-- Python exceptions that `read_case_1` can raise: the `ValueError` for an
unsupported frequency (lines 111–114) and an uncaught failure of the
`out_df.to_csv(write_filepath)` checkpoint write (line 162). -/
inductive Err where
  | config
  | checkpoint
deriving DecidableEq, Repr

instance {ε α : Type} [DecidableEq ε] [DecidableEq α] : DecidableEq (Except ε α) :=
  fun a b =>
    match a, b with
    | .ok x, .ok y =>
      if h : x = y then isTrue (by rw [h]) else isFalse (by intro hc; cases hc; exact h rfl)
    | .error x, .error y =>
      if h : x = y then isTrue (by rw [h]) else isFalse (by intro hc; cases hc; exact h rfl)
    | .ok _, .error _ => isFalse (by intro hc; cases hc)
    | .error _, .ok _ => isFalse (by intro hc; cases hc)

/-- The dates of a record list (`df["date"]`). -/
def dates (l : List Rec) : List Int := l.map Rec.date

/-- Minimum of a list of integers, 0 on the empty list (unused case:
pandas' `.min()` of an empty column is `NaN`). -/
def minD : List Int → Int
  | [] => 0
  | d :: ds => ds.foldl min d

/-- Maximum of a list of integers, 0 on the empty list. -/
def maxD : List Int → Int
  | [] => 0
  | d :: ds => ds.foldl max d

/-- `df["date"].min()` (source line 116). -/
def minDate (l : List Rec) : Int := minD (dates l)

/-- `df["date"].max()` (source line 137). -/
def maxDate (l : List Rec) : Int := maxD (dates l)

/-- Sum of the `y` values of a record list. -/
def totalY (l : List Rec) : Int := (l.map Rec.y).sum

/-- The window filter `df[(df["date"] < temp_date) & (df["date"] > start_date)]`
(source lines 121 and 142): strict on both sides. -/
def winFilter (start_date temp_date : Int) (l : List Rec) : List Rec :=
  l.filter (fun r => decide (r.date < temp_date) && decide (start_date < r.date))

/-! ## Resampling period labels

pandas `.resample("W")` uses the `W-SUN` rule: weekly buckets closed and
labelled on the right, i.e. every day is labelled by the next Sunday on or
after it.  With day numbers anchored at 1970-01-01 (a Thursday), Sundays are
the days `≡ 3 (mod 7)`.

`.resample("M")` labels every day by the last day of its calendar month.
`civilFromDays` is the standard civil-calendar conversion (proleptic
Gregorian; era arithmetic with floor division, which is what Lean's `/` and
`%` on `Int` compute for a positive divisor); a day is a month end iff the
next day is the 1st.  `monthLabel` rounds a day up to the first month end on
or after it; the bounded search radius 366 always suffices because month
ends are at most 31 days apart. -/

/-- The `W-SUN` label of a day: the next day `≡ 3 (mod 7)` (a Sunday) on or
after it. -/
def weekLabel (d : Int) : Int := d + (3 - d) % 7

/-- Convert a day number (days since 1970-01-01) to a civil
`(year, month, day)` triple, proleptic Gregorian calendar. -/
def civilFromDays (z0 : Int) : Int × Int × Int :=
  let z := z0 + 719468
  let era := z / 146097
  let doe := z % 146097
  let yoe := (doe - doe / 1460 + doe / 36524 - doe / 146096) / 365
  let doy := doe - (365 * yoe + yoe / 4 - yoe / 100)
  let mp := (5 * doy + 2) / 153
  let day := doy - (153 * mp + 2) / 5 + 1
  let m := mp + (if mp < 10 then 3 else -9)
  (yoe + era * 400 + (if m ≤ 2 then 1 else 0), m, day)

/-- A day is a month end iff the next day is the first of a month. -/
def isMonthEnd (d : Int) : Bool := decide ((civilFromDays (d + 1)).2.2 = 1)

/-- First `x ≥ d` with `p x`, searching at most `n` days up
(returns `d + n` if none is found within the radius). -/
def searchUp (p : Int → Bool) : Nat → Int → Int
  | 0, d => d
  | n + 1, d => if p d then d else searchUp p n (d + 1)

/-- The `"M"` (month-end) label of a day: the first month end on or after
it.  In the proleptic Gregorian calendar consecutive month ends are at most
31 days apart, so the search radius 366 is never exhausted. -/
def monthLabel (d : Int) : Int := searchUp isMonthEnd 366 d

/-- The resample bucket label of a day for the given frequency string.
Only `"W"` and `"M"` are reachable past the frequency validation. -/
def periodLabel (frequency : String) (d : Int) : Int :=
  if frequency = "W" then weekLabel d else monthLabel d

/-- The consecutive days from `lo` to `hi` inclusive (for `lo ≤ hi`). -/
def dayRange (lo hi : Int) : List Int :=
  (List.range ((hi - lo).toNat + 1)).map (fun (k : Nat) => lo + (k : Int))

/-- The column labels produced by `.resample(freq, axis=1)` on a pivot whose
date columns span `[lo, hi]`: all bucket labels from the first date's bucket
to the last date's bucket, in increasing order.  (Every bucket intersecting
`[lo, hi]` is the label of some day in `[lo, hi]`, so mapping the label over
the whole day span and deduplicating enumerates exactly pandas' buckets.) -/
def resampleCols (frequency : String) (lo hi : Int) : List Int :=
  ((dayRange lo hi).map (periodLabel frequency)).dedup

/-! ## Pivot, resample, and the matrix -/

/-- One cell of `pd.pivot_table(out_df, index="unique_id", columns="date",
values="y", aggfunc="sum")` (source lines 129–132 and 149–152): the sum of
`y` over records with this id and date, `NaN` (`none`) when there are none. -/
def pivotCell (l : List Rec) (u : String) (d : Int) : Option Int :=
  let ms := l.filter (fun r => decide (r.unique_id = u) && decide (r.date = d))
  if ms.isEmpty then none else some (totalY ms)

/-- The distinct date columns of the pivot.  (pandas sorts them; the order
is irrelevant here because they are only ever summed per bucket, and the
final column order is fixed by `resampleCols`.) -/
def pivotCols (l : List Rec) : List Int := (dates l).dedup

/-- `skipna` sum of a list of possibly-`NaN` values: `NaN`s contribute
nothing, and an all-`NaN` (or empty) list sums to `0` — pandas
`.sum()` with the default `min_count=0`. -/
def optSum (xs : List (Option Int)) : Int := (xs.filterMap id).sum

/-- One cell of the resampled window matrix: the `skipna` sum of the pivot
cells of all date columns falling in the bucket labelled `L`. -/
def windowCell (frequency : String) (l : List Rec) (u : String) (L : Int) : Int :=
  optSum (((pivotCols l).filter (fun d => decide (periodLabel frequency d = L))).map
    (pivotCell l u))

/-- Lexicographic strict order on character lists, by code point. -/
def charsLt : List Char → List Char → Bool
  | [], [] => false
  | [], _ :: _ => true
  | _ :: _, [] => false
  | a :: as, b :: bs =>
    if a.val < b.val then true else if b.val < a.val then false else charsLt as bs

/-- Lexicographic strict order on strings by code point — the order pandas
uses for string row indexes (it coincides with Lean's `String.lt`). -/
def strLt (s t : String) : Bool := charsLt s.data t.data

/-- Insert a string into a list, keeping sorted order. -/
def insertStr (s : String) : List String → List String
  | [] => [s]
  | t :: ts => if strLt t s then t :: insertStr s ts else s :: t :: ts

/-- Insertion sort on strings (pandas sorts row indexes lexicographically). -/
def sortStr : List String → List String
  | [] => []
  | s :: ss => insertStr s (sortStr ss)

/-- The wide output structure: an ordered list of period column labels and
one row per `unique_id`, each row holding one possibly-`NaN` cell per
column, in column order. -/
structure SeriesMatrix where
  cols : List Int
  rows : List (String × List (Option Int))
deriving DecidableEq, Repr

/-- The window-local matrix
`pd.pivot_table(...).resample(frequency, axis=1).sum()`
(source lines 129–135 and 149–155): rows are the sorted unique ids of the
window's records, columns the resample buckets spanning the window's dates,
cells the bucket sums (never `NaN` inside a single window, because
`.sum()` turns an all-`NaN` bucket into `0`).  An empty window yields an
empty frame. -/
def windowMatrix (frequency : String) (l : List Rec) : SeriesMatrix :=
  if l.isEmpty then ⟨[], []⟩ else
    let cols := resampleCols frequency (minDate l) (maxDate l)
    let us := sortStr ((l.map Rec.unique_id).dedup)
    ⟨cols, us.map (fun u => (u, cols.map (fun L => some (windowCell frequency l u L))))⟩

/-- The row of `A` for id `u`: its stored cells if present, else a row of
`NaN`s (what `pd.concat` fills in for an id absent from one operand). -/
def rowOf (A : SeriesMatrix) (u : String) : List (Option Int) :=
  match A.rows.find? (fun p => decide (p.fst = u)) with
  | some p => p.snd
  | none => A.cols.map (fun _ => none)

/-- `pd.concat([out_df, temp_df], axis=1)` (source line 158): columns are
concatenated (duplicate labels are kept), the row index is the sorted union
of both row indexes, and an id missing from one operand gets `NaN` cells
for that operand's columns. -/
def mergeMatrices (A B : SeriesMatrix) : SeriesMatrix :=
  let us := sortStr (((A.rows.map Prod.fst) ++ (B.rows.map Prod.fst)).dedup)
  ⟨A.cols ++ B.cols, us.map (fun u => (u, rowOf A u ++ rowOf B u))⟩

/-- The chunk size chosen from the frequency (source lines 107–114):
`"W" ↦ 14`, `"M" ↦ 59`, anything else raises `ValueError`. -/
def chunkSizeOf (frequency : String) : Option Nat :=
  if frequency = "W" then some 14
  else if frequency = "M" then some 59
  else none

/-- The `while start_date + chunk_period < df["date"].max()` loop of
`read_case_1` (source lines 137–162), one constructor step per iteration:
filter the next window, pivot-and-resample it, concatenate it onto the
running frame, then (if `temporary_save`) write the running frame — an
uncaught write failure aborts the run.  `k` counts iterations (it indexes
the `saveFails` oracle); the fuel argument only bounds the recursion and is
chosen large enough by `read_case_1` (see `loop_fuel_stable`). -/
def loop (records : List Rec) (frequency : String) (period dmax : Int)
    (temporary_save : Bool) (saveFails : Nat → Bool) :
    Nat → Int → Nat → SeriesMatrix → Except Err SeriesMatrix
  | 0, _, _, acc => .ok acc
  | n + 1, start_date, k, acc =>
    if start_date + period < dmax then
      let temp_date := start_date + period
      let temp_df := winFilter start_date temp_date records
      let acc' := mergeMatrices acc (windowMatrix frequency temp_df)
      if temporary_save && saveFails k then .error .checkpoint
      else loop records frequency period dmax temporary_save saveFails n (temp_date - 1) (k + 1) acc'
    else .ok acc

/-- The engine `read_case_1(read_filepath, write_filepath, frequency,
temporary_save)` (source lines 58–165), with the CSV contents abstracted to
`records` and the durable write abstracted to the `saveFails` oracle:
validate the frequency, build the first window's matrix from the records
strictly between `min_date` and `min_date + chunk_period`, then run the
windowed loop from `start_date = min_date + chunk_period - 1`. -/
def read_case_1 (records : List Rec) (frequency : String)
    (temporary_save : Bool) (saveFails : Nat → Bool) : Except Err SeriesMatrix :=
  match chunkSizeOf frequency with
  | none => .error .config
  | some cs =>
    let period : Int := cs
    let dmin := minDate records
    let dmax := maxDate records
    let temp_date := dmin + period
    let out_df := windowMatrix frequency (winFilter dmin temp_date records)
    loop records frequency period dmax temporary_save saveFails
      ((dmax - dmin).toNat + 1) (temp_date - 1) 0 out_df

/-- The list of `(start_date, temp_date)` window bounds generated by the
loop (same recursion as `loop`, data only). -/
def windowsFrom (period dmax : Int) : Nat → Int → List (Int × Int)
  | 0, _ => []
  | n + 1, start_date =>
    if start_date + period < dmax then
      (start_date, start_date + period) :: windowsFrom period dmax n (start_date + period - 1)
    else []

/-- All window bounds processed by `read_case_1` on this input: the initial
window (source lines 118–121) followed by the loop's windows. -/
def windowsOf (records : List Rec) (frequency : String) : List (Int × Int) :=
  match chunkSizeOf frequency with
  | none => []
  | some cs =>
    let period : Int := cs
    let dmin := minDate records
    let dmax := maxDate records
    (dmin, dmin + period) :: windowsFrom period dmax ((dmax - dmin).toNat + 1) (dmin + period - 1)

/-- Whether some window's filter predicate accepts the date `d`. -/
def coveredBy (ws : List (Int × Int)) (d : Int) : Bool :=
  ws.any (fun w => decide (w.1 < d) && decide (d < w.2))

/-- Sum of all (non-`NaN`) cells of a matrix. -/
def matrixTotal (M : SeriesMatrix) : Int := (M.rows.map (fun p => optSum p.snd)).sum

/-- Replace the `y` value of every record dated on the global minimum date
of `base` by `0`, leaving every other record unchanged.  Used to state that
minimum-date records never contribute to the output. -/
def zeroMin (base : List Rec) (r : Rec) : Rec :=
  if r.date = minDate base then ⟨r.unique_id, r.date, 0⟩ else r

/-! ## Concrete inputs used by the claim theorems

Day numbers are days since 1970-01-01: day 0 = 1970-01-01 (a Thursday),
day 13 = 1970-01-14, day 14 = 1970-01-15, day 16 = 1970-01-17,
day 17 = Sunday 1970-01-18, day 28 = 1970-01-29;
day 18262 = 2020-01-01, day 18264 = 2020-01-03,
day 18266 = Sunday 2020-01-05, day 18269 = 2020-01-08,
day 18273 = Sunday 2020-01-12. -/

/-- Three records of one series spanning 1970-01-01 .. 1970-01-17. -/
def consRecs : List Rec := [⟨"A", 0, 1⟩, ⟨"A", 1, 5⟩, ⟨"A", 16, 7⟩]

/-- Records with activity on both sides of the first window boundary
(days 13 and 14 share the week ending Sunday day 17) and a trailing record
on day 28 that forces a second loop window. -/
def boundaryRecs : List Rec := [⟨"A", 0, 1⟩, ⟨"A", 13, 5⟩, ⟨"A", 14, 7⟩, ⟨"A", 28, 9⟩]

/-- A sparse-series input: `A` is active only in the week ending day 3,
`B` only in the week ending day 10, all inside one window (`C` merely
anchors the minimum date). -/
def sparseRecs : List Rec := [⟨"C", 0, 1⟩, ⟨"A", 1, 5⟩, ⟨"B", 9, 3⟩]

/-- The spec's §8 example scenario:
`[(A, 2020-01-01, 5), (A, 2020-01-08, 3), (B, 2020-01-03, 2)]`. -/
def exampleRecs : List Rec := [⟨"A", 18262, 5⟩, ⟨"A", 18269, 3⟩, ⟨"B", 18264, 2⟩]

/-- A two-record input spanning 41 days, enough for the loop to run (and
attempt a checkpoint write) at least once. -/
def longRecs : List Rec := [⟨"A", 0, 2⟩, ⟨"A", 40, 4⟩]

/-- The matrix `read_case_1` produces on `consRecs` with frequency `"W"`. -/
def consOut : SeriesMatrix := ⟨[3], [("A", [some 5])]⟩

/-- The matrix `read_case_1` produces on `boundaryRecs` with frequency
`"W"`: the week ending Sunday day 17 appears as TWO columns, one from each
window. -/
def boundaryOut : SeriesMatrix := ⟨[17, 17], [("A", [some 5, some 7])]⟩

/-- The matrix `read_case_1` produces on `sparseRecs` with frequency `"W"`. -/
def sparseOut : SeriesMatrix :=
  ⟨[3, 10], [("A", [some 5, some 0]), ("B", [some 0, some 3])]⟩

/-- The matrix `read_case_1` produces on the spec's example scenario:
columns are the week-ending Sundays 2020-01-05 and 2020-01-12, the
2020-01-01 record is gone, and the inactive weeks hold explicit zeros. -/
def exampleOut : SeriesMatrix :=
  ⟨[18266, 18273], [("A", [some 0, some 3]), ("B", [some 2, some 0])]⟩

/-- The matrix the spec's §8 example expects: columns labelled by the
period-start dates 2020-01-01 and 2020-01-08, row `A = {5, 3}`, row
`B = {2, absent}`. -/
def exampleExpected : SeriesMatrix :=
  ⟨[18262, 18269], [("A", [some 5, some 3]), ("B", [some 2, none])]⟩

/-! ## C1 — conservation -/

/-- **C1** (code_bug evidence).  On `consRecs` (total `y` = 13) the engine
returns a matrix whose cells total 5: the record on the global minimum date
(day 0, `y` = 1) is excluded by the strict `date > start_date` filter, and
the record on day 16 (`y` = 7) falls after the only processed window
`(0, 14)` because the loop stops once `start_date + chunk_period ≥
max_date`.  Neither dropped date is a shared boundary between consecutive
windows, so the loss is not covered by the documented boundary-day policy:
conservation fails. -/
theorem conservation_fails_on_consRecs :
    read_case_1 consRecs "W" false (fun _ => false) = .ok consOut ∧
    matrixTotal consOut = 5 ∧ totalY consRecs = 13 := by
  decide

/-! ## C2 — window coverage -/

/-- **C2** (code_bug evidence).  On `consRecs` the date range is
`[0, 16]` and the engine generates the single window `(0, 14)`: the
minimum date 0 and the tail dates 14, 15, 16 are covered by no window's
filter predicate (day 13 is covered), although none of them is a shared
boundary between consecutive windows — the claimed partition of
`[start_date, end_date]` fails. -/
theorem coverage_fails_on_consRecs :
    windowsOf consRecs "W" = [(0, 14)] ∧
    minDate consRecs = 0 ∧ maxDate consRecs = 16 ∧
    coveredBy (windowsOf consRecs "W") 0 = false ∧
    coveredBy (windowsOf consRecs "W") 13 = true ∧
    coveredBy (windowsOf consRecs "W") 14 = false ∧
    coveredBy (windowsOf consRecs "W") 15 = false ∧
    coveredBy (windowsOf consRecs "W") 16 = false := by
  decide

/-! ## C3 — merge policy for overlapping columns -/

/-- **C3** (code_bug evidence).  On `boundaryRecs`, days 13 and 14 lie in
the same `W-SUN` week (ending day 17 = Sunday 1970-01-18) but in different
windows, so both windows produce a column labelled 17; `pd.concat` keeps
both, so the final matrix has two distinct columns for the same period —
the merge neither rejects the run nor sums the overlap (the dedupe step
`fix_duplicate_cols` is commented out at source line 164). -/
theorem merge_keeps_duplicate_columns :
    read_case_1 boundaryRecs "W" false (fun _ => false) = .ok boundaryOut ∧
    ¬ boundaryOut.cols.Nodup := by
  decide

/-! ## C4 — column ordering (counterexample part) -/

/-- **C4** (counterexample).  After the merge on `boundaryRecs` the running
matrix's columns are `[17, 17]`: NOT strictly increasing, refuting the
claim as stated. -/
theorem columns_not_strictly_increasing :
    read_case_1 boundaryRecs "W" false (fun _ => false) = .ok boundaryOut ∧
    ¬ boundaryOut.cols.Pairwise (· < ·) := by
  constructor
  · decide
  · decide

/-! ## C5 — frequency validation fails fast -/

/-- **C5**.  For every frequency outside `{W, M}`, `read_case_1` raises the
configuration error (the `ValueError` of source lines 111–114) before any
window is processed, and no matrix — partial or otherwise — is produced. -/
theorem invalid_frequency_fails_fast (records : List Rec) (frequency : String)
    (temporary_save : Bool) (saveFails : Nat → Bool)
    (hW : frequency ≠ "W") (hM : frequency ≠ "M") :
    read_case_1 records frequency temporary_save saveFails = .error .config := by
  unfold read_case_1 chunkSizeOf
  simp [hW, hM]

/-- Witness for **C5** at the concrete unsupported frequency `"D"`. -/
theorem invalid_frequency_fails_fast_witness :
    read_case_1 consRecs "D" false (fun _ => false) = .error .config :=
  invalid_frequency_fails_fast consRecs "D" false (fun _ => false)
    (by decide) (by decide)

/-! ## C6 — sparse-series correctness (counterexample part) -/

/-- **C6** (counterexample).  On `sparseRecs` all of series `A`'s records
fall in the single processed window and in the week ending day 3, yet `A`'s
cell for the other period (the week ending day 10), a period in which `A`
has no records at all, is the explicit zero `some 0` — not absent — because
`.resample(...).sum()` materializes every bucket of the window's span and
sums an all-`NaN` bucket to `0`. -/
theorem sparse_series_gets_explicit_zero :
    read_case_1 sparseRecs "W" false (fun _ => false) = .ok sparseOut ∧
    sparseRecs.filter
      (fun r => decide (r.unique_id = "A") && decide (periodLabel "W" r.date = 10)) = [] ∧
    rowOf sparseOut "A" = [some 5, some 0] := by
  decide

/-! ## C8 — the spec's end-to-end example (counterexample and actual value) -/

/-- **C8** (counterexample).  On the spec's example scenario the engine
does not return the expected matrix: the 2020-01-01 record is dropped by
the strict minimum-date filter, columns are labelled by the week-ending
Sundays (2020-01-05, 2020-01-12) rather than the period starts, and `B`'s
(and `A`'s) inactive weeks hold explicit zeros instead of being absent. -/
theorem example_scenario_fails :
    read_case_1 exampleRecs "W" false (fun _ => false) = .ok exampleOut ∧
    exampleOut ≠ exampleExpected := by
  decide

/-- **C8** (amended).  What the engine actually returns on the spec's
example scenario: columns `[2020-01-05, 2020-01-12]` (week-ending Sundays),
row `A = [0, 3]` (the 2020-01-01 record is excluded, its week summing to an
explicit 0), row `B = [2, 0]` (second week an explicit 0, not absent). -/
theorem example_scenario_actual :
    read_case_1 exampleRecs "W" false (fun _ => false) = .ok exampleOut := by
  decide

/-! ## C9 — checkpoint failure (counterexample part) -/

/-- **C9** (counterexample).  With checkpointing enabled, a failure of the
durable write aborts the whole run — the error propagates and no matrix is
returned — although the very same run with checkpointing disabled completes
and returns the final matrix.  Processing does not continue past a failed
write. -/
theorem checkpoint_failure_aborts :
    read_case_1 boundaryRecs "W" true (fun _ => true) = .error .checkpoint ∧
    read_case_1 boundaryRecs "W" false (fun _ => true) = .ok boundaryOut := by
  decide

/-! ## Basic unfolding lemmas for the loop -/

/-- One unfolding step of the loop at positive fuel. -/
theorem loop_succ (records : List Rec) (frequency : String) (period dmax : Int)
    (temporary_save : Bool) (saveFails : Nat → Bool) (n : Nat) (start_date : Int)
    (k : Nat) (acc : SeriesMatrix) :
    loop records frequency period dmax temporary_save saveFails (n + 1) start_date k acc =
      if start_date + period < dmax then
        (if temporary_save && saveFails k then .error .checkpoint
         else loop records frequency period dmax temporary_save saveFails n
           (start_date + period - 1) (k + 1)
           (mergeMatrices acc
             (windowMatrix frequency (winFilter start_date (start_date + period) records))))
      else .ok acc := rfl

/-- One unfolding step of the window-bounds list at positive fuel. -/
theorem windowsFrom_succ (period dmax : Int) (n : Nat) (start_date : Int) :
    windowsFrom period dmax (n + 1) start_date =
      if start_date + period < dmax then
        (start_date, start_date + period) :: windowsFrom period dmax n (start_date + period - 1)
      else [] := rfl

/-- The only chunk sizes the engine ever uses are 14 (weekly) and 59
(monthly). -/
theorem chunkSizeOf_eq_some {frequency : String} {cs : Nat}
    (h : chunkSizeOf frequency = some cs) : cs = 14 ∨ cs = 59 := by
  unfold chunkSizeOf at h
  split at h
  · exact Or.inl (Option.some_injective _ h).symm
  · split at h
    · exact Or.inr (Option.some_injective _ h).symm
    · exact absurd h (by simp)

/-- `read_case_1` unfolded at a valid frequency. -/
theorem read_case_1_eq_loop (records : List Rec) (frequency : String)
    (temporary_save : Bool) (saveFails : Nat → Bool) (cs : Nat)
    (h : chunkSizeOf frequency = some cs) :
    read_case_1 records frequency temporary_save saveFails =
      loop records frequency cs (maxDate records) temporary_save saveFails
        ((maxDate records - minDate records).toNat + 1) (minDate records + cs - 1) 0
        (windowMatrix frequency
          (winFilter (minDate records) (minDate records + cs) records)) := by
  unfold read_case_1
  rw [h]

/-- The loop's result does not depend on the fuel, as long as the fuel is at
least `(dmax - start_date).toNat` — which `read_case_1`'s choice
`(dmax - dmin).toNat + 1` always is, since the loop starts at
`start_date = dmin + chunk_size - 1 ≥ dmin` and only ever increases
`start_date`.  This makes the fueled recursion an exact embedding of the
source's `while start_date + chunk_period < df["date"].max()` loop. -/
theorem loop_fuel_stable (records : List Rec) (frequency : String) (period dmax : Int)
    (temporary_save : Bool) (saveFails : Nat → Bool) (hp : 2 ≤ period) :
    ∀ (n : Nat) (start_date : Int) (k : Nat) (acc : SeriesMatrix),
      (dmax - start_date).toNat ≤ n →
      loop records frequency period dmax temporary_save saveFails (n + 1) start_date k acc =
        loop records frequency period dmax temporary_save saveFails n start_date k acc := by
  intro n
  induction n with
  | zero =>
    intro start_date k acc hn
    rw [loop_succ]
    rw [if_neg (by omega)]
    rfl
  | succ n ih =>
    intro start_date k acc hn
    rw [loop_succ]
    rw [loop_succ records frequency period dmax temporary_save saveFails n start_date k acc]
    by_cases hc : start_date + period < dmax
    · rw [if_pos hc, if_pos hc]
      by_cases hs : (temporary_save && saveFails k) = true
      · rw [if_pos hs, if_pos hs]
      · rw [if_neg hs, if_neg hs]
        exact ih (start_date + period - 1) (k + 1) _ (by omega)
    · rw [if_neg hc, if_neg hc]

/-! ## C9 — checkpoint failure aborts (amended part) -/

/-- **C9** (amended).  When checkpointing is enabled, the running matrix is
written once per loop-processed window, after that window has been merged;
a failure of the first such write makes the whole run abort with the
checkpoint error — processing does not continue and no matrix is returned.
(The hypothesis `minDate + 27 < maxDate` just says the date span is long
enough for the weekly loop to process a second window and hence attempt a
write at all.) -/
theorem checkpoint_failure_aborts_general (records : List Rec) (saveFails : Nat → Bool)
    (h0 : saveFails 0 = true) (hspan : minDate records + 27 < maxDate records) :
    read_case_1 records "W" true saveFails = .error .checkpoint := by
  rw [read_case_1_eq_loop records "W" true saveFails 14 rfl, loop_succ,
    if_pos (by push_cast; omega)]
  simp [h0]

/-- Witness for **C9** (amended) on a concrete 41-day input. -/
theorem checkpoint_failure_aborts_general_witness :
    read_case_1 longRecs "W" true (fun _ => true) = .error .checkpoint :=
  checkpoint_failure_aborts_general longRecs (fun _ => true) rfl (by decide)

/-! ## C7 — duplicate records are summed -/

/-- `totalY` distributes over cons. -/
theorem totalY_cons (r : Rec) (l : List Rec) : totalY (r :: l) = r.y + totalY l := by
  simp [totalY]

/-- `optSum` distributes over cons, a `NaN` head contributing `0`. -/
theorem optSum_cons (x : Option Int) (xs : List (Option Int)) :
    optSum (x :: xs) = x.getD 0 + optSum xs := by
  cases x <;> simp [optSum]

/-- Read through the `NaN` of a pivot cell: as a summand it is exactly the
group's `y` total (an empty group contributing `0`). -/
theorem pivotCell_getD (l : List Rec) (u : String) (d : Int) :
    (pivotCell l u d).getD 0 =
      totalY (l.filter (fun r => decide (r.unique_id = u) && decide (r.date = d))) := by
  simp only [pivotCell]
  split
  · rename_i h
    rw [List.isEmpty_iff] at h
    rw [h]
    rfl
  · rfl

/-- Summing a filtered list splits over a disjunction of disjoint
predicates. -/
theorem totalY_filter_or (l : List Rec) (p q : Rec → Bool)
    (hdisj : ∀ r, ¬(p r = true ∧ q r = true)) :
    totalY (l.filter (fun r => p r || q r)) = totalY (l.filter p) + totalY (l.filter q) := by
  induction l with
  | nil => simp [totalY]
  | cons r l ih =>
    simp only [List.filter_cons]
    cases hp : p r <;> cases hq : q r <;>
      simp only [hp, hq, Bool.or_self, Bool.true_or, Bool.false_or, Bool.or_true,
        Bool.false_eq_true, if_false, if_true, totalY_cons]
    · exact ih
    · rw [ih]; ring
    · rw [ih]; ring
    · exact absurd ⟨hp, hq⟩ (hdisj r)

/-- Summing the per-date group totals over a duplicate-free date list equals
one direct sum over all records with a date in the list. -/
theorem sum_group_eq (l : List Rec) (u : String) :
    ∀ (D : List Int), D.Nodup →
      (D.map (fun d =>
        totalY (l.filter (fun r => decide (r.unique_id = u) && decide (r.date = d))))).sum =
      totalY (l.filter (fun r => decide (r.unique_id = u) && decide (r.date ∈ D))) := by
  intro D
  induction D with
  | nil =>
    intro _
    simp [totalY]
  | cons d D ih =>
    intro hnd
    rw [List.nodup_cons] at hnd
    rw [List.map_cons, List.sum_cons, ih hnd.2]
    have hsplit := totalY_filter_or l
      (fun r => decide (r.unique_id = u) && decide (r.date = d))
      (fun r => decide (r.unique_id = u) && decide (r.date ∈ D))
      (by
        intro r hcontra
        simp only [Bool.and_eq_true, decide_eq_true_eq] at hcontra
        exact hnd.1 (hcontra.1.2 ▸ hcontra.2.2))
    rw [← hsplit]
    apply congrArg
    apply List.filter_congr
    intro r _
    by_cases hu : r.unique_id = u <;>
      simp [hu, List.mem_cons, Bool.and_or_distrib_left]

/-- **C7**.  Every cell of a window's pivoted-and-resampled matrix is the
sum of `y` over ALL records of that `unique_id` whose date falls in that
period — records sharing a `(unique_id, date)` are summed by the pivot
(`aggfunc="sum"`), and the per-date subtotals are summed again by the
resample; nothing is overwritten and no duplicate cell survives. -/
theorem duplicate_records_are_summed (frequency : String) (l : List Rec) (u : String) (L : Int) :
    windowCell frequency l u L =
      totalY (l.filter (fun r =>
        decide (r.unique_id = u) && decide (periodLabel frequency r.date = L))) := by
  unfold windowCell
  have step1 : ∀ (D : List Int),
      optSum (D.map (pivotCell l u)) =
      (D.map (fun d =>
        totalY (l.filter (fun r => decide (r.unique_id = u) && decide (r.date = d))))).sum := by
    intro D
    induction D with
    | nil => rfl
    | cons d D ih =>
      rw [List.map_cons, optSum_cons, ih, List.map_cons, List.sum_cons, pivotCell_getD]
  rw [step1, sum_group_eq l u ((pivotCols l).filter (fun d => decide (periodLabel frequency d = L)))
    (List.Nodup.filter _ (List.nodup_dedup (dates l)))]
  apply congrArg
  apply List.filter_congr
  intro r hr
  by_cases hu : r.unique_id = u
  · simp only [hu, decide_True, Bool.true_and, decide_eq_decide]
    constructor
    · intro hmem
      have := (List.mem_filter.mp hmem).2
      simpa using this
    · intro hL
      apply List.mem_filter.mpr
      exact ⟨List.mem_dedup.mpr (List.mem_map.mpr ⟨r, hr, rfl⟩), by simp [hL]⟩
  · simp [hu]

/-! ## C10 — records on the global minimum date never contribute -/

/-- `zeroMin` does not touch dates. -/
theorem zeroMin_date (base : List Rec) (r : Rec) : (zeroMin base r).date = r.date := by
  unfold zeroMin
  split <;> rfl

/-- `zeroMin` preserves the date column of a whole list. -/
theorem dates_map_zeroMin (base l : List Rec) : dates (l.map (zeroMin base)) = dates l := by
  unfold dates
  rw [List.map_map]
  exact List.map_congr_left (fun r _ => zeroMin_date base r)

/-- A window filter with lower bound at or above the minimum date cannot
see the difference made by `zeroMin`: its predicate only reads dates, and
every record it keeps is dated strictly after the minimum date. -/
theorem winFilter_map_zeroMin (records : List Rec) (s e : Int) (hs : minDate records ≤ s) :
    winFilter s e (records.map (zeroMin records)) = winFilter s e records := by
  unfold winFilter
  rw [List.filter_map]
  have hcomp : ((fun r => decide (r.date < e) && decide (s < r.date)) ∘ zeroMin records)
      = (fun r => decide (r.date < e) && decide (s < r.date)) := by
    funext r
    simp [Function.comp, zeroMin_date]
  rw [hcomp]
  have hid : ∀ r ∈ records.filter (fun r => decide (r.date < e) && decide (s < r.date)),
      zeroMin records r = r := by
    intro r hr
    have hmem := List.mem_filter.mp hr
    have hgt : s < r.date := by
      have := hmem.2
      simp only [Bool.and_eq_true, decide_eq_true_eq] at this
      exact this.2
    unfold zeroMin
    rw [if_neg (by omega)]
  rw [List.map_congr_left hid]
  exact List.map_id _

/-- The loop sees the same windows on the `zeroMin`-mapped records, for any
`start_date` at or above the minimum date. -/
theorem loop_map_zeroMin (records : List Rec) (frequency : String) (period dmax : Int)
    (temporary_save : Bool) (saveFails : Nat → Bool) (hp : 1 ≤ period) :
    ∀ (n : Nat) (s : Int) (k : Nat) (acc : SeriesMatrix), minDate records ≤ s →
      loop (records.map (zeroMin records)) frequency period dmax temporary_save saveFails
          n s k acc =
        loop records frequency period dmax temporary_save saveFails n s k acc := by
  intro n
  induction n with
  | zero =>
    intro s k acc _
    rfl
  | succ n ih =>
    intro s k acc hs
    rw [loop_succ, loop_succ]
    by_cases hc : s + period < dmax
    · rw [if_pos hc, if_pos hc, winFilter_map_zeroMin records s (s + period) hs]
      by_cases hsf : (temporary_save && saveFails k) = true
      · rw [if_pos hsf, if_pos hsf]
      · rw [if_neg hsf, if_neg hsf]
        exact ih (s + period - 1) (k + 1) _ (by omega)
    · rw [if_neg hc, if_neg hc]

/-- **C10**.  Records dated exactly on the global minimum date never
contribute to any cell of the output: the first window's filter requires
`date > min_date` and every later window's lower bound is even higher, so
replacing the `y` value of every minimum-date record by `0` provably leaves
the whole result of `read_case_1` unchanged (for every frequency, both
checkpointing modes, and every write-outcome oracle). -/
theorem min_date_records_never_contribute (records : List Rec) (frequency : String)
    (temporary_save : Bool) (saveFails : Nat → Bool) :
    read_case_1 (records.map (zeroMin records)) frequency temporary_save saveFails =
      read_case_1 records frequency temporary_save saveFails := by
  cases hc : chunkSizeOf frequency with
  | none =>
    unfold read_case_1
    rw [hc]
  | some cs =>
    have hmin : minDate (records.map (zeroMin records)) = minDate records := by
      unfold minDate
      rw [dates_map_zeroMin]
    have hmax : maxDate (records.map (zeroMin records)) = maxDate records := by
      unfold maxDate
      rw [dates_map_zeroMin]
    have hcs1 : (1 : Int) ≤ (cs : Int) := by
      rcases chunkSizeOf_eq_some hc with h | h <;> subst h <;> norm_num
    rw [read_case_1_eq_loop _ frequency _ _ cs hc,
      read_case_1_eq_loop records frequency _ _ cs hc, hmin, hmax,
      winFilter_map_zeroMin records _ _ (le_refl _)]
    exact loop_map_zeroMin records frequency cs (maxDate records) temporary_save saveFails hcs1
      _ _ _ _ (by omega)

/-! ## Monotonicity of the period labels -/

/-- The bounded upward search never overshoots a witness of `p` lying at or
above the start. -/
theorem searchUp_le_of_found (p : Int → Bool) :
    ∀ (n : Nat) (d x : Int), p x = true → d ≤ x → searchUp p n d ≤ x := by
  intro n
  induction n with
  | zero =>
    intro d x _ hdx
    simpa [searchUp] using hdx
  | succ n ih =>
    intro d x hx hdx
    unfold searchUp
    by_cases hd : p d = true
    · rw [if_pos hd]
      exact hdx
    · rw [if_neg hd]
      have hne : d ≠ x := fun he => hd (he ▸ hx)
      exact ih (d + 1) x hx (by omega)

/-- The search result stays within the radius. -/
theorem searchUp_le_add (p : Int → Bool) : ∀ (n : Nat) (d : Int), searchUp p n d ≤ d + n := by
  intro n
  induction n with
  | zero =>
    intro d
    simp [searchUp]
  | succ n ih =>
    intro d
    unfold searchUp
    split
    · omega
    · have := ih (d + 1)
      omega

/-- The search result is at or above the start. -/
theorem searchUp_ge (p : Int → Bool) : ∀ (n : Nat) (d : Int), d ≤ searchUp p n d := by
  intro n
  induction n with
  | zero =>
    intro d
    simp [searchUp]
  | succ n ih =>
    intro d
    unfold searchUp
    split
    · omega
    · have := ih (d + 1)
      omega

/-- The search either finds a day satisfying `p` or falls back to the end
of its radius. -/
theorem searchUp_spec (p : Int → Bool) :
    ∀ (n : Nat) (d : Int), p (searchUp p n d) = true ∨ searchUp p n d = d + n := by
  intro n
  induction n with
  | zero =>
    intro d
    exact Or.inr (by simp [searchUp])
  | succ n ih =>
    intro d
    unfold searchUp
    by_cases hd : p d = true
    · rw [if_pos hd]
      exact Or.inl hd
    · rw [if_neg hd]
      rcases ih (d + 1) with h | h
      · exact Or.inl h
      · exact Or.inr (by omega)

/-- Rounding up to the first day satisfying `p` (with a bounded radius) is
monotone — for any predicate, hence in particular for month ends. -/
theorem searchUp_mono (p : Int → Bool) (n : Nat) {d e : Int} (h : d ≤ e) :
    searchUp p n d ≤ searchUp p n e := by
  rcases searchUp_spec p n e with hf | hf
  · exact searchUp_le_of_found p n d (searchUp p n e) hf (le_trans h (searchUp_ge p n e))
  · have := searchUp_le_add p n d
    omega

/-- `W-SUN` weekly labels are monotone. -/
theorem weekLabel_mono {d e : Int} (h : d ≤ e) : weekLabel d ≤ weekLabel e := by
  unfold weekLabel
  omega

/-- `"M"` month-end labels are monotone. -/
theorem monthLabel_mono {d e : Int} (h : d ≤ e) : monthLabel d ≤ monthLabel e :=
  searchUp_mono isMonthEnd 366 h

/-- The period label is monotone for every frequency string. -/
theorem periodLabel_mono (frequency : String) {d e : Int} (h : d ≤ e) :
    periodLabel frequency d ≤ periodLabel frequency e := by
  unfold periodLabel
  split
  · exact weekLabel_mono h
  · exact monthLabel_mono h

/-! ## Bounds on window dates and resampled columns -/

/-- A `min`-fold stays at or below its seed. -/
theorem foldl_min_le_init : ∀ (ds : List Int) (a : Int), ds.foldl min a ≤ a := by
  intro ds
  induction ds with
  | nil =>
    intro a
    exact le_refl a
  | cons d ds ih =>
    intro a
    exact le_trans (ih (min a d)) (min_le_left a d)

/-- A `min`-fold stays below its seed and every element. -/
theorem foldl_min_le : ∀ (ds : List Int) (a x : Int), x ∈ a :: ds → ds.foldl min a ≤ x := by
  intro ds
  induction ds with
  | nil =>
    intro a x hx
    rcases List.mem_singleton.mp hx with rfl
    exact le_refl _
  | cons d ds ih =>
    intro a x hx
    rcases List.mem_cons.mp hx with rfl | hx'
    · exact le_trans (foldl_min_le_init ds (min x d)) (min_le_left x d)
    · rcases List.mem_cons.mp hx' with rfl | hx''
      · exact le_trans (foldl_min_le_init ds (min a x)) (min_le_right a x)
      · exact ih (min a d) x (List.mem_cons_of_mem _ hx'')

/-- A `min`-fold lands on its seed or one of the elements. -/
theorem foldl_min_mem : ∀ (ds : List Int) (a : Int), ds.foldl min a ∈ a :: ds := by
  intro ds
  induction ds with
  | nil =>
    intro a
    exact List.mem_singleton.mpr rfl
  | cons d ds ih =>
    intro a
    rw [List.foldl_cons]
    have h := ih (min a d)
    rcases List.mem_cons.mp h with he | hm
    · rw [he]
      rcases min_choice a d with hc | hc
      · rw [hc]
        exact List.mem_cons_self _ _
      · rw [hc]
        exact List.mem_cons_of_mem _ (List.mem_cons_self _ _)
    · exact List.mem_cons_of_mem _ (List.mem_cons_of_mem _ hm)

/-- A `max`-fold stays at or above its seed. -/
theorem le_foldl_max_init : ∀ (ds : List Int) (a : Int), a ≤ ds.foldl max a := by
  intro ds
  induction ds with
  | nil =>
    intro a
    exact le_refl a
  | cons d ds ih =>
    intro a
    exact le_trans (le_max_left a d) (ih (max a d))

/-- A `max`-fold stays above its seed and every element. -/
theorem le_foldl_max : ∀ (ds : List Int) (a x : Int), x ∈ a :: ds → x ≤ ds.foldl max a := by
  intro ds
  induction ds with
  | nil =>
    intro a x hx
    rcases List.mem_singleton.mp hx with rfl
    exact le_refl _
  | cons d ds ih =>
    intro a x hx
    rcases List.mem_cons.mp hx with rfl | hx'
    · exact le_trans (le_max_left x d) (le_foldl_max_init ds (max x d))
    · rcases List.mem_cons.mp hx' with rfl | hx''
      · exact le_trans (le_max_right a x) (le_foldl_max_init ds (max a x))
      · exact ih (max a d) x (List.mem_cons_of_mem _ hx'')

/-- A `max`-fold lands on its seed or one of the elements. -/
theorem foldl_max_mem : ∀ (ds : List Int) (a : Int), ds.foldl max a ∈ a :: ds := by
  intro ds
  induction ds with
  | nil =>
    intro a
    exact List.mem_singleton.mpr rfl
  | cons d ds ih =>
    intro a
    rw [List.foldl_cons]
    have h := ih (max a d)
    rcases List.mem_cons.mp h with he | hm
    · rw [he]
      rcases max_choice a d with hc | hc
      · rw [hc]
        exact List.mem_cons_self _ _
      · rw [hc]
        exact List.mem_cons_of_mem _ (List.mem_cons_self _ _)
    · exact List.mem_cons_of_mem _ (List.mem_cons_of_mem _ hm)

/-- The minimum date of a nonempty record list is one of its dates. -/
theorem minDate_mem {l : List Rec} (h : l ≠ []) : minDate l ∈ dates l := by
  cases l with
  | nil => exact absurd rfl h
  | cons r l => exact foldl_min_mem _ _

/-- The minimum date bounds every record's date from below. -/
theorem minDate_le {l : List Rec} {r : Rec} (hr : r ∈ l) : minDate l ≤ r.date := by
  cases l with
  | nil => cases hr
  | cons r0 l =>
    apply foldl_min_le
    rcases List.mem_cons.mp hr with rfl | h
    · exact List.mem_cons_self _ _
    · exact List.mem_cons_of_mem _ (List.mem_map.mpr ⟨r, h, rfl⟩)

/-- The maximum date of a nonempty record list is one of its dates. -/
theorem maxDate_mem {l : List Rec} (h : l ≠ []) : maxDate l ∈ dates l := by
  cases l with
  | nil => exact absurd rfl h
  | cons r l => exact foldl_max_mem _ _

/-- The maximum date bounds every record's date from above. -/
theorem le_maxDate {l : List Rec} {r : Rec} (hr : r ∈ l) : r.date ≤ maxDate l := by
  cases l with
  | nil => cases hr
  | cons r0 l =>
    apply le_foldl_max
    rcases List.mem_cons.mp hr with rfl | h
    · exact List.mem_cons_self _ _
    · exact List.mem_cons_of_mem _ (List.mem_map.mpr ⟨r, h, rfl⟩)

/-- Everything a window filter keeps satisfies its strict bounds. -/
theorem winFilter_bounds {start_date temp_date : Int} {l : List Rec} {r : Rec}
    (hr : r ∈ winFilter start_date temp_date l) :
    r ∈ l ∧ start_date < r.date ∧ r.date < temp_date := by
  have h := List.mem_filter.mp hr
  refine ⟨h.1, ?_, ?_⟩ <;>
    · have := h.2
      simp only [Bool.and_eq_true, decide_eq_true_eq] at this
      omega

/-- Membership in a day range. -/
theorem mem_dayRange {lo hi x : Int} (hlh : lo ≤ hi) :
    x ∈ dayRange lo hi ↔ lo ≤ x ∧ x ≤ hi := by
  unfold dayRange
  simp only [List.mem_map, List.mem_range]
  constructor
  · rintro ⟨k, hk, rfl⟩
    omega
  · intro ⟨h1, h2⟩
    exact ⟨(x - lo).toNat, by omega, by omega⟩

/-- The day range is non-decreasing. -/
theorem dayRange_pairwise (lo hi : Int) : (dayRange lo hi).Pairwise (· ≤ ·) := by
  unfold dayRange
  rw [List.pairwise_map]
  exact (List.pairwise_lt_range _).imp (fun h => by omega)

/-- The resampled columns are non-decreasing (the labels of a
non-decreasing day list, deduplicated). -/
theorem resampleCols_pairwise (frequency : String) (lo hi : Int) :
    (resampleCols frequency lo hi).Pairwise (· ≤ ·) := by
  unfold resampleCols
  apply List.Pairwise.sublist (List.dedup_sublist _)
  rw [List.pairwise_map]
  exact (dayRange_pairwise lo hi).imp (fun h => periodLabel_mono _ h)

/-- Every resampled column label comes from a day of the range. -/
theorem mem_resampleCols {frequency : String} {lo hi L : Int}
    (hL : L ∈ resampleCols frequency lo hi) :
    ∃ d, d ∈ dayRange lo hi ∧ L = periodLabel frequency d := by
  unfold resampleCols at hL
  rcases List.mem_map.mp (List.mem_dedup.mp hL) with ⟨d, hd, rfl⟩
  exact ⟨d, hd, rfl⟩

/-- A helper to read off the column list of a window matrix. -/
theorem windowMatrix_cols (frequency : String) (l : List Rec) :
    (windowMatrix frequency l).cols =
      if l.isEmpty then [] else resampleCols frequency (minDate l) (maxDate l) := by
  unfold windowMatrix
  split <;> rfl

/-- A window matrix's columns are non-decreasing. -/
theorem windowMatrix_cols_pairwise (frequency : String) (l : List Rec) :
    (windowMatrix frequency l).cols.Pairwise (· ≤ ·) := by
  rw [windowMatrix_cols]
  split
  · exact List.Pairwise.nil
  · exact resampleCols_pairwise _ _ _

/-- Every column of the matrix built from a window `(start_date, temp_date)`
is bounded between the labels of `start_date` and `temp_date - 1`. -/
theorem windowMatrix_cols_bounds {frequency : String} {start_date temp_date : Int}
    {records : List Rec} {L : Int}
    (hL : L ∈ (windowMatrix frequency (winFilter start_date temp_date records)).cols) :
    periodLabel frequency start_date ≤ L ∧ L ≤ periodLabel frequency (temp_date - 1) := by
  rw [windowMatrix_cols] at hL
  split at hL
  · cases hL
  · rename_i hne
    rw [List.isEmpty_iff] at hne
    push_neg at hne  
    set l := winFilter start_date temp_date records with hl
    have hlo : start_date < minDate l ∧ minDate l < temp_date := by
      rcases List.mem_map.mp (minDate_mem hne) with ⟨r, hr, hrd⟩
      have := winFilter_bounds hr
      omega
    have hhi : start_date < maxDate l ∧ maxDate l < temp_date := by
      rcases List.mem_map.mp (maxDate_mem hne) with ⟨r, hr, hrd⟩
      have := winFilter_bounds hr
      omega
    have hlh : minDate l ≤ maxDate l := by
      rcases List.mem_map.mp (minDate_mem hne) with ⟨r, hr, hrd⟩
      have := le_maxDate hr
      omega
    rcases mem_resampleCols hL with ⟨d, hd, rfl⟩
    have hdb := (mem_dayRange hlh).mp hd
    constructor
    · exact periodLabel_mono frequency (by omega)
    · exact periodLabel_mono frequency (by omega)

/-! ## The loop as a fold over its window list -/

/-- A successful run of the loop is exactly a fold of merges of the
window-local matrices over the loop's window-bounds list. -/
theorem loop_ok_fold (records : List Rec) (frequency : String) (period dmax : Int)
    (temporary_save : Bool) (saveFails : Nat → Bool) :
    ∀ (n : Nat) (start_date : Int) (k : Nat) (acc M : SeriesMatrix),
      loop records frequency period dmax temporary_save saveFails n start_date k acc = .ok M →
      M = List.foldl
        (fun A w => mergeMatrices A (windowMatrix frequency (winFilter w.1 w.2 records)))
        acc (windowsFrom period dmax n start_date) := by
  intro n
  induction n with
  | zero =>
    intro start_date k acc M h
    cases h
    rfl
  | succ n ih =>
    intro start_date k acc M h
    rw [loop_succ] at h
    rw [windowsFrom_succ]
    by_cases hc : start_date + period < dmax
    · rw [if_pos hc] at h
      rw [if_pos hc, List.foldl_cons]
      by_cases hs : (temporary_save && saveFails k) = true
      · rw [if_pos hs] at h
        cases h
      · rw [if_neg hs] at h
        exact ih _ _ _ _ h
    · rw [if_neg hc] at h
      cases h
      rw [if_neg hc]
      rfl

/-- Columns of a merge-fold: the accumulator's columns followed by every
window's columns, in window order. -/
theorem foldl_merge_cols (records : List Rec) (frequency : String) :
    ∀ (ws : List (Int × Int)) (acc : SeriesMatrix),
      (List.foldl
        (fun A w => mergeMatrices A (windowMatrix frequency (winFilter w.1 w.2 records)))
        acc ws).cols =
      acc.cols ++
        (ws.map (fun w => (windowMatrix frequency (winFilter w.1 w.2 records)).cols)).flatten := by
  intro ws
  induction ws with
  | nil =>
    intro acc
    simp
  | cons w ws ih =>
    intro acc
    rw [List.foldl_cons, ih, List.map_cons, List.flatten_cons, ← List.append_assoc]
    rfl

/-- The invariant carried across the loop: if the accumulated columns are
non-decreasing and all bounded by the label of the current `start_date`,
they stay so after appending every remaining window's columns. -/
theorem windows_cols_pairwise (records : List Rec) (frequency : String) (period dmax : Int)
    (hp : 1 ≤ period) :
    ∀ (n : Nat) (start_date : Int) (accCols : List Int),
      accCols.Pairwise (· ≤ ·) →
      (∀ L ∈ accCols, L ≤ periodLabel frequency start_date) →
      (accCols ++
        ((windowsFrom period dmax n start_date).map
          (fun w => (windowMatrix frequency (winFilter w.1 w.2 records)).cols)).flatten).Pairwise
        (· ≤ ·) := by
  intro n
  induction n with
  | zero =>
    intro start_date accCols hpair _
    have hz : windowsFrom period dmax 0 start_date = [] := rfl
    rw [hz, List.map_nil, List.flatten_nil, List.append_nil]
    exact hpair
  | succ n ih =>
    intro start_date accCols hpair hbound
    rw [windowsFrom_succ]
    by_cases hc : start_date + period < dmax
    · rw [if_pos hc, List.map_cons, List.flatten_cons, ← List.append_assoc]
      apply ih (start_date + period - 1)
      · rw [List.pairwise_append]
        refine ⟨hpair, windowMatrix_cols_pairwise _ _, ?_⟩
        intro a ha b hb
        have hblo := (windowMatrix_cols_bounds hb).1
        exact le_trans (hbound a ha) hblo
      · intro L hL
        rcases List.mem_append.mp hL with h | h
        · exact le_trans (hbound L h) (periodLabel_mono frequency (by omega))
        · exact (windowMatrix_cols_bounds h).2
    · rw [if_neg hc, List.map_nil, List.flatten_nil, List.append_nil]
      exact hpair

/-! ## C4 — column ordering (amended part) -/

/-- **C4** (amended).  Whenever `read_case_1` returns a matrix, its columns
are non-decreasing by period label (pandas labels every resample period by
its END date, so this is equivalently non-decreasing by period start):
each window's resampled columns are sorted, and consecutive windows only
ever contribute labels at or above everything already merged.  Strictness
fails only where two consecutive windows contribute the same boundary
period, which shows up as two equal adjacent column labels. -/
theorem merged_columns_nondecreasing (records : List Rec) (frequency : String)
    (temporary_save : Bool) (saveFails : Nat → Bool) (M : SeriesMatrix)
    (h : read_case_1 records frequency temporary_save saveFails = .ok M) :
    M.cols.Pairwise (· ≤ ·) := by
  cases hc : chunkSizeOf frequency with
  | none =>
    rw [read_case_1, hc] at h
    cases h
  | some cs =>
    have hcs1 : (1 : Int) ≤ (cs : Int) := by
      rcases chunkSizeOf_eq_some hc with hcs | hcs <;> subst hcs <;> norm_num
    rw [read_case_1_eq_loop records frequency temporary_save saveFails cs hc] at h
    rw [loop_ok_fold records frequency cs (maxDate records) temporary_save saveFails
      _ _ _ _ _ h, foldl_merge_cols]
    apply windows_cols_pairwise records frequency cs (maxDate records) hcs1
    · exact windowMatrix_cols_pairwise _ _
    · intro L hL
      exact (windowMatrix_cols_bounds hL).2

/-- Witness for **C4** (amended): the duplicate-column run's columns
`[17, 17]` are indeed non-decreasing. -/
theorem merged_columns_nondecreasing_witness : boundaryOut.cols.Pairwise (· ≤ ·) :=
  merged_columns_nondecreasing boundaryRecs "W" false (fun _ => false) boundaryOut
    (by decide)

/-! ## Row lookup through sorting, merging, and folding -/

/-- Insertion preserves membership. -/
theorem mem_insertStr {a s : String} : ∀ {l : List String}, a ∈ insertStr s l ↔ a = s ∨ a ∈ l := by
  intro l
  induction l with
  | nil => simp [insertStr]
  | cons t ts ih =>
    unfold insertStr
    split
    · rw [List.mem_cons, ih, List.mem_cons]
      tauto
    · rw [List.mem_cons, List.mem_cons]

/-- Sorting preserves membership. -/
theorem mem_sortStr {a : String} : ∀ {l : List String}, a ∈ sortStr l ↔ a ∈ l := by
  intro l
  induction l with
  | nil => exact Iff.rfl
  | cons s ss ih =>
    unfold sortStr
    rw [mem_insertStr, ih, List.mem_cons]

/-- Finding a present key in a key-tagged map always yields that key's
entry. -/
theorem find?_map_key {β : Type} (f : String → β) (u : String) :
    ∀ (us : List String), u ∈ us →
      (us.map (fun v => (v, f v))).find? (fun p => decide (p.fst = u)) = some (u, f u) := by
  intro us
  induction us with
  | nil =>
    intro h
    cases h
  | cons t ts ih =>
    intro h
    rw [List.map_cons, List.find?_cons]
    by_cases ht : t = u
    · subst ht
      simp
    · have : (decide ((t, f t).fst = u)) = false := by simp [ht]
      rw [this]
      exact ih (by rcases List.mem_cons.mp h with rfl | hm; exact absurd rfl ht; exact hm)

/-- A key that is not a row of `A` reads as an all-`NaN` row. -/
theorem rowOf_not_mem {A : SeriesMatrix} {u : String} (h : u ∉ A.rows.map Prod.fst) :
    rowOf A u = A.cols.map (fun _ => none) := by
  unfold rowOf
  have hfind : A.rows.find? (fun p => decide (p.fst = u)) = none := by
    rw [List.find?_eq_none]
    intro p hp
    simp only [decide_eq_true_eq]
    intro he
    exact h (List.mem_map.mpr ⟨p, hp, he⟩)
  rw [hfind]

/-- Reading a row when the key lookup succeeds. -/
theorem rowOf_eq_of_find?_some {A : SeriesMatrix} {u : String}
    {p : String × List (Option Int)}
    (h : A.rows.find? (fun q => decide (q.fst = u)) = some p) : rowOf A u = p.snd := by
  unfold rowOf
  rw [h]

/-- Reading a row through a merge splits into reading through both
operands: `pd.concat(axis=1)` aligns rows by id, filling `NaN`s. -/
theorem rowOf_merge (A B : SeriesMatrix) (u : String) :
    rowOf (mergeMatrices A B) u = rowOf A u ++ rowOf B u := by
  have hrows : (mergeMatrices A B).rows =
      (sortStr (((A.rows.map Prod.fst) ++ (B.rows.map Prod.fst)).dedup)).map
        (fun v => (v, rowOf A v ++ rowOf B v)) := rfl
  have hcols : (mergeMatrices A B).cols = A.cols ++ B.cols := rfl
  by_cases hu : u ∈ sortStr (((A.rows.map Prod.fst) ++ (B.rows.map Prod.fst)).dedup)
  · have hfind : (mergeMatrices A B).rows.find? (fun q => decide (q.fst = u)) =
        some (u, rowOf A u ++ rowOf B u) := by
      rw [hrows]
      exact find?_map_key (fun v => rowOf A v ++ rowOf B v) u _ hu
    rw [rowOf_eq_of_find?_some hfind]
  · have hmem := hu
    rw [mem_sortStr, List.mem_dedup, List.mem_append] at hmem
    push_neg at hmem
    have hnot : u ∉ (mergeMatrices A B).rows.map Prod.fst := by
      rw [hrows]
      intro hcon
      rcases List.mem_map.mp hcon with ⟨p, hp, hpe⟩
      rcases List.mem_map.mp hp with ⟨v, hv, rfl⟩
      exact hu (hpe ▸ hv)
    rw [rowOf_not_mem hnot, hcols, List.map_append,
      rowOf_not_mem hmem.1, rowOf_not_mem hmem.2]

/-- Reading a row through the whole merge-fold: the accumulator's row
followed by each window's row block, in window order. -/
theorem foldl_merge_rowOf (records : List Rec) (frequency : String) (u : String) :
    ∀ (ws : List (Int × Int)) (acc : SeriesMatrix),
      rowOf (List.foldl
        (fun A w => mergeMatrices A (windowMatrix frequency (winFilter w.1 w.2 records)))
        acc ws) u =
      rowOf acc u ++
        (ws.map (fun w => rowOf (windowMatrix frequency (winFilter w.1 w.2 records)) u)).flatten := by
  intro ws
  induction ws with
  | nil =>
    intro acc
    simp
  | cons w ws ih =>
    intro acc
    rw [List.foldl_cons, ih, List.map_cons, List.flatten_cons, ← List.append_assoc,
      rowOf_merge]

/-- A row of a single window's matrix: all-present bucket sums when the id
has a record in the window, all-`NaN` when it does not. -/
theorem rowOf_windowMatrix (frequency : String) (l : List Rec) (u : String) :
    rowOf (windowMatrix frequency l) u =
      if u ∈ l.map Rec.unique_id
      then (windowMatrix frequency l).cols.map (fun L => some (windowCell frequency l u L))
      else (windowMatrix frequency l).cols.map (fun _ => none) := by
  by_cases he : l.isEmpty = true
  · rw [List.isEmpty_iff] at he
    subst he
    have h1 : windowMatrix frequency [] = ⟨[], []⟩ := rfl
    rw [h1]
    have h2 : rowOf ⟨[], []⟩ u = [] := rfl
    rw [h2]
    simp
  · have hcols : (windowMatrix frequency l).cols =
        resampleCols frequency (minDate l) (maxDate l) := by
      rw [windowMatrix_cols, if_neg (by simp [he])]
    have hrows : (windowMatrix frequency l).rows =
        (sortStr ((l.map Rec.unique_id).dedup)).map
          (fun u => (u, (resampleCols frequency (minDate l) (maxDate l)).map
            (fun L => some (windowCell frequency l u L)))) := by
      unfold windowMatrix
      rw [if_neg (by simp [he])]
    by_cases hu : u ∈ l.map Rec.unique_id
    · rw [if_pos hu]
      have hfind : (windowMatrix frequency l).rows.find? (fun q => decide (q.fst = u)) =
          some (u, (resampleCols frequency (minDate l) (maxDate l)).map
            (fun L => some (windowCell frequency l u L))) := by
        rw [hrows]
        exact find?_map_key (fun u => (resampleCols frequency (minDate l) (maxDate l)).map
          (fun L => some (windowCell frequency l u L))) u _
          (mem_sortStr.mpr (List.mem_dedup.mpr hu))
      rw [rowOf_eq_of_find?_some hfind, hcols]
    · rw [if_neg hu]
      have : u ∉ (windowMatrix frequency l).rows.map Prod.fst := by
        rw [hrows]
        intro hcon
        rcases List.mem_map.mp hcon with ⟨p, hp, hpe⟩
        rcases List.mem_map.mp hp with ⟨v, hv, rfl⟩
        rw [mem_sortStr, List.mem_dedup] at hv
        exact hu (hpe ▸ hv)
      rw [rowOf_not_mem this]

/-! ## C6 — sparse-series correctness (amended part) -/

/-- **C6** (amended).  A full characterization of every row of the output:
for each processed window (in order), a series' cells for that window's
columns are ALL `NaN` (absent) when the series has no record in the window,
and are ALL present when it has at least one — each present cell holding the
sum of the series' records in that period, which is an explicit `0` for
periods of the window's resampled span in which it had no records.  Hence a
series is absent exactly from the column blocks of windows it does not
appear in, while `.resample(...).sum()` zero-fills its inactive periods
inside its own windows. -/
theorem sparse_rows_characterized (records : List Rec) (frequency : String)
    (temporary_save : Bool) (saveFails : Nat → Bool) (M : SeriesMatrix)
    (h : read_case_1 records frequency temporary_save saveFails = .ok M) (u : String) :
    rowOf M u = ((windowsOf records frequency).map (fun w =>
      let l := winFilter w.1 w.2 records
      if u ∈ l.map Rec.unique_id
      then (windowMatrix frequency l).cols.map (fun L => some (windowCell frequency l u L))
      else (windowMatrix frequency l).cols.map (fun _ => none))).flatten := by
  cases hc : chunkSizeOf frequency with
  | none =>
    rw [read_case_1, hc] at h
    cases h
  | some cs =>
    rw [read_case_1_eq_loop records frequency temporary_save saveFails cs hc] at h
    rw [loop_ok_fold records frequency cs (maxDate records) temporary_save saveFails
      _ _ _ _ _ h, foldl_merge_rowOf]
    have hws : windowsOf records frequency =
        (minDate records, minDate records + (cs : Int)) ::
          windowsFrom cs (maxDate records) ((maxDate records - minDate records).toNat + 1)
            (minDate records + (cs : Int) - 1) := by
      unfold windowsOf
      rw [hc]
    rw [hws, List.map_cons, List.flatten_cons]
    congr 1
    · exact rowOf_windowMatrix frequency _ u
    · congr 1
      apply List.map_congr_left
      intro w _
      exact rowOf_windowMatrix frequency (winFilter w.1 w.2 records) u

/-- Witness for **C6** (amended) at the sparse-series input, series `A`. -/
theorem sparse_rows_characterized_witness :
    rowOf sparseOut "A" = ((windowsOf sparseRecs "W").map (fun w =>
      let l := winFilter w.1 w.2 sparseRecs
      if "A" ∈ l.map Rec.unique_id
      then (windowMatrix "W" l).cols.map (fun L => some (windowCell "W" l "A" L))
      else (windowMatrix "W" l).cols.map (fun _ => none))).flatten :=
  sparse_rows_characterized sparseRecs "W" false (fun _ => false) sparseOut (by decide) "A"
